import Mathlib

/-!
Verification development for the recipe-processor repository.

Shallow embedding of:
* the prompt-template expander and per-row dispatch of
  `src/recipe-processor-frontend/src/components/AIProcessor.jsx`
  (`processRow`, `processData`, `splitIntoBatches`, `estimateTokens`);
* the bulk-batch coordinator and job store of `server.js`
  (`processBatchAsync`, `jobManager.createJob` and `updateJob` call sites,
  `jobManager.cleanupOldJobs`) and the `/process` route.

JS machine numbers that matter here are small integers and exact binary
fractions, so they are modelled as `Nat` / `Int` / `Rat`; strings are Lean
`String`s; JS objects used as string-keyed maps are `String → Option String`;
fallible code returns explicit error values.
-/

namespace RecipeProcessor

/-- A dataset row: a JS object mapping column names to string values
(`undefined` is `none`).  Mirrors one element of `csvData` / `results`. -/
def Row : Type := String → Option String

/-- `results[i][prompt.outputColumn] = result` — JS property assignment on a
row object. -/
def Row.update (r : Row) (c v : String) : Row :=
  fun c' => if c' = c then some v else r c'

/-- An absent row (used only as the `getD` default; loops index in bounds). -/
def emptyRow : Row := fun _ => none

/-- JS `String.prototype.trim()`: strip whitespace from both ends (modelled
on the character list so that it evaluates by kernel reduction). -/
def trimChars (l : List Char) : List Char :=
  ((l.dropWhile Char.isWhitespace).reverse.dropWhile Char.isWhitespace).reverse

/-- JS `String.prototype.toLowerCase()` on the character list. -/
def jsToLower (s : String) : String := String.mk (s.data.map Char.toLower)

/-- JS `String.prototype.split(sep)` for a single-character separator, on the
character list: `"a_b" ↦ ["a","b"]`, `"" ↦ [""]`, `"_" ↦ ["",""]`. -/
def splitChars (sep : Char) : List Char → List (List Char)
  | [] => [[]]
  | c :: rest =>
    match splitChars sep rest with
    | [] => [[c]]
    | h :: t => if c = sep then [] :: h :: t else (c :: h) :: t

/-- JS `s.split('_')`. -/
def jsSplitUnderscore (s : String) : List String :=
  (splitChars '_' s.data).map String.mk

/-- JS truthiness fallback `row[cleanColumnName] || match`: `undefined` and the
empty string are falsy, so they yield the fallback (the whole matched
placeholder text). -/
def jsOr (v : Option String) (fallback : String) : String :=
  match v with
  | some s => if s = "" then fallback else s
  | none => fallback

/-- The replacement callback of
`processedPrompt.replace(/\{([^}]+)\}/g, (match, columnName) => …)` in
`processRow` (AIProcessor.jsx:622-648).  `columnName.trim()` is looked up in
the row; both the `processedColumns[cleanColumnName]` branch and the fallback
branch return `row[cleanColumnName] || match` (they differ only in the vision
URL side-channel, which no claim depends on), so the substituted value does
not depend on `processedColumns`.  `inner` is the matched `[^}]+` group;
`match` is the full `\x7b…\x7d` text. -/
def substValue (pc : String → Bool) (row : Row) (inner : List Char) : List Char :=
  let clean := String.mk (trimChars inner)
  let fullMatch := String.mk ('{' :: inner ++ ['}'])
  if pc clean then (jsOr (row clean) fullMatch).data
  else (jsOr (row clean) fullMatch).data

/-- Left-to-right scan implementing the global regex replace with pattern
`\{([^}]+)\}`: at an opening brace, the match extends to the first closing
brace provided at least one character lies between (the character class
`[^}]+` admits further opening braces); otherwise the brace is literal text.
The second argument is `none` outside a candidate match and `some inner`
(reversed accumulated group) inside one. -/
def scanTemplate (pc : String → Bool) (row : Row) : List Char → Option (List Char) → List Char
  | [], none => []
  | [], some inner => '{' :: inner.reverse
  | c :: rest, none =>
    if c = '{' then scanTemplate pc row rest (some [])
    else c :: scanTemplate pc row rest none
  | c :: rest, some inner =>
    if c = '}' then
      if inner.isEmpty then
        '{' :: '}' :: scanTemplate pc row rest none
      else
        substValue pc row inner.reverse ++ scanTemplate pc row rest none
    else scanTemplate pc row rest (some (c :: inner))

/-- `prompt.template.replace(/\{([^}]+)\}/g, …)` — full template expansion
against a row (AIProcessor.jsx:619-648). -/
def expandTemplate (pc : String → Bool) (row : Row) (template : String) : String :=
  String.mk (scanTemplate pc row template.data none)

/-- `estimateTokens` (AIProcessor.jsx:67-70): `Math.ceil(text.length / 4)`. -/
def estimateTokens (text : String) : ℕ := (text.length + 3) / 4

/-- `RATE_LIMITS.claude.inputTokensPerMinute` (AIProcessor.jsx:20). -/
def inputTokensPerMinute : ℕ := 80000

/-- `RATE_LIMITS.claude.minDelay` in milliseconds (AIProcessor.jsx:22). -/
def claudeMinDelay : ℕ := 60

/-- `MAX_RETRIES` (AIProcessor.jsx:6). -/
def MAX_RETRIES : ℕ := 5

/-- The distinguished cancellation message thrown and recognised by
`processRow` / `processData`. -/
def stoppedMsg : String := "Processing stopped by user"

/-- The fail-fast token-ceiling error of `processRow` (AIProcessor.jsx:663). -/
def tokenLimitMsg : String := "Input token limit exceeded for this request"

/-!
## Per-row pipeline (`processRow` / `processData`, AIProcessor.jsx)

The cooperative cancellation flag `stopProcessingRef.current` is monotone
within one run (set once by `stopProcessing`, cleared only in the `finally`
block after the run).  Every read of the flag is therefore modelled by a
global check counter `tick`: the read performed at check number `t` returns
`true` iff `K ≤ t`, where `K` is the (possibly never reached) check index at
which the user's cancellation becomes visible.
-/

/-- Observable effects accumulated by a pipeline run.  `tick` counts reads of
the cancellation flag; `attempts` counts network dispatches (`axios.post`
calls); `sleptMs` sums the `sleep(…)` delays consumed (the rate budget);
`failed` is the `failedCells` list as `(rowIndex, error message)` pairs. -/
structure PState where
  tick : ℕ
  results : List Row
  failed : List (ℕ × String)
  attempts : ℕ
  sleptMs : ℕ

/-- Advance past one read of `stopProcessingRef.current`. -/
def afterCheck (s : PState) : PState := { s with tick := s.tick + 1 }

/-- `trackFailedCell(rowIndex, prompt, error)` (AIProcessor.jsx:451-459),
keyed here by row index and serialized error message. -/
def trackFail (s : PState) (i : ℕ) (e : String) : PState :=
  { s with failed := s.failed ++ [(i, e)] }

/-- Oracle for one `axios.post('/process', …)` attempt: success with a result
string, an HTTP 429 rate-limit rejection (with the optional `retry-after`
header, in seconds), or any other failure with its error message. -/
inductive DispR where
  | ok (v : String)
  | rate (em : String) (retryAfter : Option ℕ)
  | fail (em : String)

/-- Result of one `processRow` call: the distinguished cancellation throw, a
normal return value, or a non-cancellation error (thrown after
`trackFailedCell`). -/
inductive RowRes where
  | stopped
  | val (v : String)
  | failedErr (e : String)

/-- `processRow(row, prompt, retryCount, rowIndex)` (AIProcessor.jsx:612-741).
`budget = MAX_RETRIES - retryCount` is the remaining retry allowance; `disp a`
is the network outcome of the attempt with `retryCount = a`.  Control flow
mirrors the source: cancellation check; template expansion; empty-expansion
skip; for Claude, the fail-fast token-ceiling check then the `minDelay` sleep;
the dispatch itself; and the catch block, which re-raises errors carrying the
cancellation message, retries 429s (sleeping `retry-after || 60` seconds)
while `retryCount < MAX_RETRIES`, and otherwise records a failed cell and
re-throws.  (The token/cost counters and the incremental `setOutput` mirror
of the caller's own write are pure observability and are omitted.) -/
def processRow (K : ℕ) (claude : Bool) (sys : String) (pc : String → Bool)
    (disp : ℕ → DispR) (i : ℕ) (template : String) (row : Row) :
    ℕ → PState → RowRes × PState
  | budget, s =>
    let s1 := afterCheck s
    if K ≤ s.tick then (.stopped, s1)
    else
      let p := expandTemplate pc row template
      if p = "" ∨ p = template then (.val "", s1)
      else if claude ∧ inputTokensPerMinute < estimateTokens p + estimateTokens sys then
        (.failedErr tokenLimitMsg, trackFail s1 i tokenLimitMsg)
      else
        let s2 := if claude then { s1 with sleptMs := s1.sleptMs + claudeMinDelay } else s1
        let s3 := { s2 with attempts := s2.attempts + 1 }
        match disp (MAX_RETRIES - budget) with
        | .ok v => (.val v, s3)
        | .rate em ra =>
          if em = stoppedMsg then (.stopped, s3)
          else
            match budget with
            | b + 1 =>
              processRow K claude sys pc disp i template row b
                { s3 with sleptMs := s3.sleptMs + ra.getD 60 * 1000 }
            | 0 => (.failedErr em, trackFail s3 i em)
        | .fail em =>
          if em = stoppedMsg then (.stopped, s3)
          else (.failedErr em, trackFail s3 i em)

/-- A prompt as configured in the UI (AIProcessor.jsx:585-596); fields not
consulted by the claims under verification are omitted. -/
structure Prompt where
  template : String
  outputColumn : String
  active : Bool

/-- The single-row branch of `processData`'s inner loop
(AIProcessor.jsx:918-938): for each row index, check the cancellation flag,
call `processRow`, write the returned value into the row's output column, or
record a failed cell; an escaping cancellation error aborts the loop (second
component `some stoppedMsg`), a flag observed at the loop head merely breaks. -/
def processRowsLoop (K : ℕ) (claude : Bool) (sys : String) (pc : String → Bool)
    (disp : ℕ → ℕ → DispR) (template outCol : String) :
    List ℕ → PState → PState × Option String
  | [], s => (s, none)
  | i :: rest, s =>
    let s1 := afterCheck s
    if K ≤ s.tick then (s1, none)
    else
      let row := s1.results.getD i emptyRow
      match processRow K claude sys pc (disp i) i template row MAX_RETRIES s1 with
      | (.stopped, s2) => (s2, some stoppedMsg)
      | (.val v, s2) =>
        processRowsLoop K claude sys pc disp template outCol rest
          { s2 with results := s2.results.set i (Row.update row outCol v) }
      | (.failedErr e, s2) =>
        -- the loop's catch: re-raise the distinguished cancellation message,
        -- otherwise record the failed cell and continue with the next row
        if e = stoppedMsg then (s2, some e)
        else processRowsLoop K claude sys pc disp template outCol rest (trackFail s2 i e)

/-- The outer prompt loop of `processData` (AIProcessor.jsx:874-939): for each
active prompt in order, check the cancellation flag, then run the per-row
loop over all row indices; a propagated cancellation error ends the whole
run. -/
def processPrompts (K : ℕ) (claude : Bool) (sys : String) (pc : String → Bool)
    (disp : Prompt → ℕ → ℕ → DispR) :
    List Prompt → PState → PState × Option String
  | [], s => (s, none)
  | p :: rest, s =>
    let s1 := afterCheck s
    if K ≤ s.tick then (s1, none)
    else
      match processRowsLoop K claude sys pc (disp p) p.template p.outputColumn
          (List.range s1.results.length) s1 with
      | (s2, some e) => (s2, some e)
      | (s2, none) => processPrompts K claude sys pc disp rest s2

/-- `processData` (AIProcessor.jsx:861-955): filters the active prompts and
drives the loops.  The second component is the exception escaping the loops
into the outer `catch`, which calls `handleError` only when the message is
not the distinguished cancellation message. -/
def processData (K : ℕ) (claude : Bool) (sys : String) (pc : String → Bool)
    (disp : Prompt → ℕ → ℕ → DispR) (prompts : List Prompt) (s : PState) :
    PState × Option String :=
  processPrompts K claude sys pc disp (prompts.filter (·.active)) s

/-- The outer `catch` of `processData` (AIProcessor.jsx:940-944):
`if (error.message !== 'Processing stopped by user') handleError(…)`.
Returns the message passed to `handleError`, if any. -/
def handleErrorCalls (esc : Option String) : Option String :=
  esc.bind fun m => if m = stoppedMsg then none else some m

/-!
## Batch partitioning (`splitIntoBatches`, AIProcessor.jsx:307-342)

Messages are abstracted by an element type `α` together with a size function
`sz : α → ℚ` giving `new Blob([JSON.stringify(msg)]).size / (1024 * 1024)`
(megabytes, an exact binary fraction, hence faithfully a rational).
-/

/-- `CLAUDE_BATCH_SIZE` (AIProcessor.jsx:307). -/
def CLAUDE_BATCH_SIZE : ℕ := 1000

/-- `MAX_BATCH_SIZE_MB` (AIProcessor.jsx:308). -/
def MAX_BATCH_SIZE_MB : ℚ := 32

/-- The loop body of `splitIntoBatches` (AIProcessor.jsx:316-342): `cur` is
`currentBatch` (in order), `acc` is `currentBatchSize`.  When
`currentBatchSize + msgSize > MAX_BATCH_SIZE_MB || currentBatch.length >=
CLAUDE_BATCH_SIZE`, the current batch is pushed (if non-empty) and a fresh
batch is started with the message; otherwise the message is appended.  The
trailing non-empty batch is pushed after the loop. -/
def splitLoop {α : Type} (sz : α → ℚ) : List α → List α → ℚ → List (List α)
  | [], cur, _ => if cur.isEmpty then [] else [cur]
  | m :: rest, cur, acc =>
    if MAX_BATCH_SIZE_MB < acc + sz m ∨ CLAUDE_BATCH_SIZE ≤ cur.length then
      if cur.isEmpty then splitLoop sz rest [m] (sz m)
      else cur :: splitLoop sz rest [m] (sz m)
    else splitLoop sz rest (cur ++ [m]) (acc + sz m)

/-- `splitIntoBatches(messages)` (AIProcessor.jsx:316). -/
def splitIntoBatches {α : Type} (sz : α → ℚ) (messages : List α) : List (List α) :=
  splitLoop sz messages [] 0

/-!
## Bulk job coordinator (`server.js`, src/unnamed/part_000)
-/

/-- JS `parseInt(s)` restricted to its use on custom-id segments: parse the
maximal leading run of decimal digits; no digits means `NaN`, modelled as
`none` (the segments fed to it here never carry sign/whitespace/`0x`
prefixes, which `parseInt` would otherwise also accept). -/
def jsParseInt (s : String) : Option ℕ :=
  let ds := s.data.takeWhile Char.isDigit
  if ds.isEmpty then none
  else some (ds.foldl (fun n c => n * 10 + (c.toNat - 48)) 0)

/-- Job id generation in `POST /batch` (server.js:440):
`` `job_${Date.now()}_${Math.random().toString(36).substr(2, 9)}` ``. -/
def mkJobId (ts : ℕ) (rand : String) : String :=
  "job_" ++ toString ts ++ "_" ++ rand

/-- Custom id attached to the item at position `index` in `processBatchAsync`
(server.js:500): `` `${jobId}_${index}` ``. -/
def customId (jobId : String) (index : ℕ) : String :=
  jobId ++ "_" ++ toString index

/-- The slot computed by the reconciliation loop of `processBatchAsync`
(server.js:530): `parseInt(result.custom_id.split('_')[2])`; a missing third
segment is `undefined`, whose `parseInt` is `NaN` (`none`). -/
def parseCustomIdIndex (cid : String) : Option ℕ :=
  ((jsSplitUnderscore cid).get? 2).bind jsParseInt

/-- One streamed per-item result from the provider
(`result.result.type`, server.js:532-542). -/
inductive ItemResult where
  | succeeded (text : String)
  | errored (msg : String)
  | expired

/-- The string written for one reconciled item (server.js:532-542). -/
def renderItem : ItemResult → String
  | .succeeded t => t
  | .errored m => "Error: " ++ m
  | .expired => "Error: Request expired"

/-- One iteration of the reconciliation loop (server.js:529-542):
`results[parsedSlot] = rendered`.  A `NaN` subscript creates a non-index
property on the JS array, leaving every numbered slot untouched, modelled as
a no-op on the slot list. -/
def applyStreamResult (results : List (Option String)) (cid : String) (r : ItemResult) :
    List (Option String) :=
  match parseCustomIdIndex cid with
  | some i => results.set i (some (renderItem r))
  | none => results

/-- Reconciliation of a whole result stream into
`new Array(messages.length)` (server.js:526-542): `n` message slots, each
stream entry carries its round-tripped custom id. -/
def reconcileResults (n : ℕ) (stream : List (String × ItemResult)) : List (Option String) :=
  stream.foldl (fun acc pr => applyStreamResult acc pr.1 pr.2) (List.replicate n none)

/-!
## Job store rows and updates (`batch_jobs` table, server.js:62-131,496-567)

ISO-8601 timestamp strings of equal format compare lexicographically exactly
as instants, so timestamps are modelled as integer milliseconds.
-/

/-- Job lifecycle status strings. -/
inductive JStatus where
  | created
  | processing
  | waiting
  | completed
  | failed
deriving DecidableEq, Repr

/-- One persisted `batch_jobs` row; the `results` and `model_config` text
columns are not consulted by any claim and are omitted. -/
structure JRow where
  status : JStatus
  progress : ℚ
  processed : ℕ
  total : ℕ
  batchId : Option String
  completed_at : Option ℤ
  error : Option String
deriving DecidableEq, Repr

/-- The partial-merge updates `jobManager.updateJob` receives from
`processBatchAsync` (server.js:510-565), one constructor per call site. -/
inductive JUpd where
  | toProcessing
  | toWaiting (batchId : String)
  | itemProgress (processed total : ℕ)
  | toCompleted (now : ℤ)
  | toFailed (msg : String)
deriving DecidableEq, Repr

/-- Progress recomputation `(processedCount / messages.length) * 100`
(server.js:548). -/
def batchProgress (processed total : ℕ) : ℚ :=
  ((processed : ℚ) / (total : ℚ)) * 100

/-- Partial merge performed by `jobManager.updateJob` (server.js:95-109):
only the supplied fields change. -/
def applyUpd (j : JRow) : JUpd → JRow
  | .toProcessing => { j with status := .processing, progress := 0 }
  | .toWaiting b => { j with batchId := some b, status := .waiting }
  | .itemProgress k n => { j with processed := k, progress := batchProgress k n }
  | .toCompleted now => { j with status := .completed, completed_at := some now }
  | .toFailed msg => { j with status := .failed, error := some msg }

/-- The row inserted by `jobManager.createJob` (server.js:84-93). -/
def initialJob (n : ℕ) : JRow :=
  { status := .created, progress := 0, processed := 0, total := n,
    batchId := none, completed_at := none, error := none }

/-- `CLEANUP_DAYS` (server.js:123). -/
def CLEANUP_DAYS : ℕ := 29

/-- Milliseconds per day. -/
def msPerDay : ℤ := 86400000

/-- `jobManager.cleanupOldJobs` (server.js:122-131):
`DELETE FROM batch_jobs WHERE completed_at < cutoff` with
`cutoff = now - 29 days`.  A `NULL` `completed_at` never satisfies the SQL
comparison, so such rows are always kept. -/
def cleanupOldJobs (now : ℤ) (table : List JRow) : List JRow :=
  table.filter fun j =>
    match j.completed_at with
    | some t => !decide (t < now - CLEANUP_DAYS * msPerDay)
    | none => true

/-!
## `processBatchAsync` as an effect trace (server.js:496-567)
-/

/-- Externally visible steps of one `processBatchAsync` run. -/
inductive BEffect where
  | upd (u : JUpd)
  | createBatch
  | poll
  | cleanup
deriving DecidableEq, Repr

/-- The effect sequence of a successful `processBatchAsync` run over `n`
messages completing at time `now`: status to `processing`, provider batch
creation, `batch_id`/`waiting` update, polling, one progress update per
reconciled item, the completion update, then `cleanupOldJobs`. -/
def happyEffects (n : ℕ) (now : ℤ) : List BEffect :=
  [.upd .toProcessing, .createBatch, .upd (.toWaiting "batch"), .poll]
    ++ (List.range n).map (fun k => .upd (.itemProgress (k + 1) n))
    ++ [.upd (.toCompleted now), .cleanup]

/-- A `processBatchAsync` run, optionally failing: `none` is the successful
run; `some (k, msg)` models an exception with message `msg` raised at step
`k` of the provider interaction (batch creation, polling, or reconciliation —
all of which precede the completion update), upon which the `catch` block
(server.js:561-567) issues the single `failed` update and returns. -/
def runEffects (n : ℕ) (now : ℤ) : Option (ℕ × String) → List BEffect
  | none => happyEffects n now
  | some (k, msg) => (happyEffects n now).take (min k (4 + n)) ++ [.upd (.toFailed msg)]

/-- The job-store updates performed by a run (its `upd` effects, in order). -/
def runUpdates (n : ℕ) (now : ℤ) (fl : Option (ℕ × String)) : List JUpd :=
  (runEffects n now fl).filterMap fun e =>
    match e with
    | .upd u => some u
    | _ => none

/-- Final persisted row of a failing run. -/
def failedRunJob (n : ℕ) (now : ℤ) (k : ℕ) (msg : String) : JRow :=
  (runUpdates n now (some (k, msg))).foldl applyUpd (initialJob n)

/-!
## The successive stored job rows of the happy path (for the progress
invariants).  These enumerate, in order, the row as persisted after
`createJob` and after each `updateJob` call of `processBatchAsync`; the
per-item updates set `processed_messages` and `progress` absolutely, so each
is expressed over the `waiting` row. -/

/-- Row after `createJob` (server.js:443). -/
def jobRow0 (n : ℕ) : JRow := initialJob n

/-- Row after the `processing` update (server.js:510-513). -/
def jobRow1 (n : ℕ) : JRow := applyUpd (jobRow0 n) .toProcessing

/-- Row after the `batch_id`/`waiting` update (server.js:517-520). -/
def jobRow2 (n : ℕ) : JRow := applyUpd (jobRow1 n) (.toWaiting "batch")

/-- Row after the `k`-th per-item progress update (server.js:545-549);
the update touches only `processed_messages` and `progress`, so its base row
is the `waiting` row. -/
def jobItem (n k : ℕ) : JRow := applyUpd (jobRow2 n) (.itemProgress (k + 1) n)

/-- All per-item rows of a run over `n` messages. -/
def jobItems (n : ℕ) : List JRow := (List.range n).map (jobItem n)

/-- Row after the completion update (server.js:553-557). -/
def jobFinal (n : ℕ) (now : ℤ) : JRow :=
  applyUpd ((jobItems n).getLastD (jobRow2 n)) (.toCompleted now)

/-- The full sequence of stored rows of a successful run. -/
def jobTrace (n : ℕ) (now : ℤ) : List JRow :=
  [jobRow0 n, jobRow1 n, jobRow2 n] ++ jobItems n ++ [jobFinal n now]

/-!
## The `/process` route (server.js:280-434), single-prompt requests

Provider calls are abstracted by the strings they would return
(`textResult` for the configured text model, `visionResult` for the vision
model); `isValidImage` abstracts the `HEAD`-probe `isValidImageUrl`.
The route handler runs inside an ES module, so every binding declared with
`const` is immutable and an assignment to it throws a
`TypeError: Assignment to constant variable` at runtime, which the route's
`catch` forwards to `errorHandler` (server.js:135-170), producing an
HTTP 500 response with the error's message.
-/

/-- Outcome of a `/process` request: the JSON success payload
`{ success: true, result, targetColumn }` or an error response with its HTTP
status and message. -/
inductive ProcOut where
  | ok (result : String) (targetColumn : String)
  | err (status : ℕ) (msg : String)
deriving DecidableEq, Repr

/-- The text-only fallback `switch (model.toLowerCase())`
(server.js:376-420) followed by the `if (!result) throw 'No result
generated'` guard: `perplexity` has an empty case body (its `result` stays
undefined), unknown models throw. -/
def textOnlyPath (model : String) (textResult : String) (targetColumn : String) : ProcOut :=
  if jsToLower model = "gemini" ∨ jsToLower model = "gpt" ∨ jsToLower model = "claude" then
    if textResult = "" then .err 500 "No result generated"
    else .ok textResult targetColumn
  else if jsToLower model = "perplexity" then .err 500 "No result generated"
  else .err 500 ("Unsupported model: " ++ model)

/-- `app.post('/process')` (server.js:280-434) for a single-prompt request
(no `batchMessages`).  `isVisionRequest` is the `const` computed at line 292;
when it is set, the image list is non-empty and every URL fails validation,
the source executes `isVisionRequest = false;` (line 309) — an assignment to
a `const` binding — so the request dies with a `TypeError` that
`errorHandler` converts to a 500 response instead of falling back to text. -/
def processRoute (model : String) (visionEnabled : Bool) (visionModel : String)
    (imageUrls : List String) (isValidImage : String → Bool)
    (textResult visionResult : String) (prompt : String) (targetColumn : String) : ProcOut :=
  if prompt = "" then .err 400 "Prompt or batch messages are required"
  else
    let isVisionRequest := visionEnabled ∧ visionModel ≠ ""
    if isVisionRequest ∧ imageUrls ≠ [] then
      if (imageUrls.filter isValidImage).isEmpty then
        .err 500 "Assignment to constant variable"
      else if jsToLower model = "gemini" ∨ jsToLower model = "gpt" ∨ jsToLower model = "claude" then
        -- a falsy (empty) vision result drops through to the `if (!result)`
        -- text fallback, exactly as in the source
        if visionResult = "" then textOnlyPath model textResult targetColumn
        else .ok visionResult targetColumn
      else .err 500 ("Vision not supported for model: " ++ model)
    else textOnlyPath model textResult targetColumn

/-!
## Concrete fixtures used by witnesses and counterexamples
-/

/-- System prompt of 320000 characters: 80000 estimated tokens by itself. -/
def bigSys : String := String.mk (List.replicate 320000 'a')

/-- A row carrying a short value for column `t`. -/
def rowT : Row := fun c => if c = "t" then some "ab" else none

/-- A dataset row whose raw `title` column is `"raw"`. -/
def rowC6 : Row := fun c => if c = "title" then some "raw" else none

/-- First prompt of the chaining scenario: its template references no column
of `rowC6`, so its expansion is unchanged, the row is classified empty, and
the empty string is written into its output column `title` (which collides
with the raw input column). -/
def promptA : Prompt := { template := "{absent}", outputColumn := "title", active := true }

/-- Second prompt of the chaining scenario: references `title`, the first
prompt's output column. -/
def promptB : Prompt := { template := "X {title}", outputColumn := "summary", active := true }

/-!
## Lemmas about `splitLoop`
-/

/-- Concatenating the produced chunks restores the pending batch followed by
the remaining messages. -/
theorem splitLoop_join {α : Type} (sz : α → ℚ) (msgs : List α) :
    ∀ (cur : List α) (acc : ℚ), (splitLoop sz msgs cur acc).flatten = cur ++ msgs := by
  induction msgs with
  | nil => intro cur acc; cases cur <;> simp [splitLoop]
  | cons m rest ih =>
    intro cur acc
    simp only [splitLoop]
    split
    · split
      · next hcur =>
        rw [List.isEmpty_iff] at hcur
        subst hcur
        simp [ih]
      · simp [ih]
    · simp [ih]

/-- Every produced chunk is non-empty. -/
theorem splitLoop_ne_nil {α : Type} (sz : α → ℚ) (msgs : List α) :
    ∀ (cur : List α) (acc : ℚ), ∀ c ∈ splitLoop sz msgs cur acc, c ≠ [] := by
  induction msgs with
  | nil =>
    intro cur acc c hc
    by_cases h : cur.isEmpty
    · simp [splitLoop, h] at hc
    · simp only [splitLoop, h, if_neg, Bool.false_eq_true, not_false_eq_true, List.mem_singleton]
        at hc
      subst hc
      simpa [List.isEmpty_iff] using h
  | cons m rest ih =>
    intro cur acc c hc
    simp only [splitLoop] at hc
    split at hc
    · split at hc
      · exact ih _ _ c hc
      · next hcur =>
        rcases List.mem_cons.mp hc with h | h
        · subst h; simpa [List.isEmpty_iff] using hcur
        · exact ih _ _ c h
    · exact ih _ _ c hc

/-- No produced chunk exceeds the item-count bound, provided the pending
batch does not. -/
theorem splitLoop_length_le {α : Type} (sz : α → ℚ) (msgs : List α) :
    ∀ (cur : List α) (acc : ℚ), cur.length ≤ CLAUDE_BATCH_SIZE →
      ∀ c ∈ splitLoop sz msgs cur acc, c.length ≤ CLAUDE_BATCH_SIZE := by
  induction msgs with
  | nil =>
    intro cur acc hcur c hc
    by_cases h : cur.isEmpty
    · simp [splitLoop, h] at hc
    · simp only [splitLoop, h, Bool.false_eq_true, not_false_eq_true, if_neg,
        List.mem_singleton] at hc
      subst hc; exact hcur
  | cons m rest ih =>
    intro cur acc hcur c hc
    simp only [splitLoop] at hc
    split at hc
    · split at hc
      · exact ih _ _ (by simp [CLAUDE_BATCH_SIZE]) c hc
      · rcases List.mem_cons.mp hc with h | h
        · subst h; exact hcur
        · exact ih _ _ (by simp [CLAUDE_BATCH_SIZE]) c h
    · next hcond =>
      push_neg at hcond
      refine ih _ _ ?_ c hc
      have : cur.length < CLAUDE_BATCH_SIZE := hcond.2
      simpa [List.length_append] using this

/-- Every produced chunk of two or more items keeps the summed serialized
size within the bound, provided the pending batch does (the accumulator is
the pending batch's summed size). -/
theorem splitLoop_size_le {α : Type} (sz : α → ℚ) (msgs : List α) :
    ∀ (cur : List α) (acc : ℚ), acc = (cur.map sz).sum →
      (2 ≤ cur.length → (cur.map sz).sum ≤ MAX_BATCH_SIZE_MB) →
      ∀ c ∈ splitLoop sz msgs cur acc,
        2 ≤ c.length → (c.map sz).sum ≤ MAX_BATCH_SIZE_MB := by
  induction msgs with
  | nil =>
    intro cur acc hacc hcur c hc
    by_cases h : cur.isEmpty
    · simp [splitLoop, h] at hc
    · simp only [splitLoop, h, Bool.false_eq_true, not_false_eq_true, if_neg,
        List.mem_singleton] at hc
      subst hc; exact hcur
  | cons m rest ih =>
    intro cur acc hacc hcur c hc
    simp only [splitLoop] at hc
    split at hc
    · split at hc
      · exact ih _ _ (by simp) (by simp) c hc
      · rcases List.mem_cons.mp hc with h | h
        · subst h; exact hcur
        · exact ih _ _ (by simp) (by simp) c h
    · next hcond =>
      push_neg at hcond
      subst hacc
      refine ih _ _ (by simp) (fun _ => ?_) c hc
      have := hcond.1
      simpa [List.map_append, List.sum_append] using this

/-- The first chunk produced from a non-empty pending batch extends that
batch. -/
theorem splitLoop_first {α : Type} (sz : α → ℚ) (msgs : List α) :
    ∀ (cur : List α) (acc : ℚ), cur ≠ [] →
      ∃ ext rest, splitLoop sz msgs cur acc = (cur ++ ext) :: rest := by
  induction msgs with
  | nil =>
    intro cur acc hcur
    refine ⟨[], [], ?_⟩
    simp [splitLoop, List.isEmpty_iff, hcur]
  | cons m rest ih =>
    intro cur acc hcur
    simp only [splitLoop]
    split
    · rw [if_neg (by simpa [List.isEmpty_iff] using hcur)]
      exact ⟨[], _, by rw [List.append_nil]⟩
    · rcases ih (cur ++ [m]) (acc + sz m) (by simp) with ⟨ext, rest', h⟩
      exact ⟨[m] ++ ext, rest', by simpa using h⟩

/-- A chunk is closed only when forced: between consecutive chunks, either
the earlier chunk is at the item cap, or appending the next chunk's first
item to it would exceed the size bound (the accumulator again tracks the
pending batch's summed size). -/
theorem splitLoop_chain {α : Type} (sz : α → ℚ) (msgs : List α) :
    ∀ (cur : List α) (acc : ℚ), acc = (cur.map sz).sum →
      List.Chain'
        (fun c d => CLAUDE_BATCH_SIZE ≤ c.length ∨
          ∀ e ∈ d.head?, MAX_BATCH_SIZE_MB < (c.map sz).sum + sz e)
        (splitLoop sz msgs cur acc) := by
  induction msgs with
  | nil =>
    intro cur acc hacc
    by_cases h : cur.isEmpty <;> simp [splitLoop, h]
  | cons m rest ih =>
    intro cur acc hacc
    simp only [splitLoop]
    split
    · next hcond =>
      split
      · exact ih _ _ (by simp)
      · rw [List.chain'_cons']
        refine ⟨?_, ih _ _ (by simp)⟩
        intro d hd
        rcases splitLoop_first sz rest [m] (sz m) (by simp) with ⟨ext, rest', hfirst⟩
        rw [hfirst] at hd
        simp only [List.head?_cons, Option.mem_def, Option.some.injEq] at hd
        subst hd
        rcases hcond with hsz | hlen
        · right
          intro e he
          simp only [List.singleton_append, List.head?_cons, Option.mem_def,
            Option.some.injEq] at he
          subst he
          simpa [hacc] using hsz
        · exact Or.inl hlen
    · exact ih _ _ (by simp [hacc])

/-- C3, counterexample: the claim "every chunk … has at most 32 MB serialized
size" fails.  A single message whose own serialized size is 40 MB is placed
(unsplit) in a chunk of its own, and that chunk exceeds the 32 MB bound. -/
theorem c3_counterexample :
    splitIntoBatches (fun q : ℚ => q) [40] = [[40]]
      ∧ ¬ ∀ c ∈ splitIntoBatches (fun q : ℚ => q) [40],
          (c.map (fun q : ℚ => q)).sum ≤ MAX_BATCH_SIZE_MB := by
  have h : splitIntoBatches (fun q : ℚ => q) [40] = [[40]] := by
    simp [splitIntoBatches, splitLoop, MAX_BATCH_SIZE_MB, CLAUDE_BATCH_SIZE]
  refine ⟨h, ?_⟩
  intro hall
  have := hall [40] (by simp [h])
  norm_num [MAX_BATCH_SIZE_MB] at this

/-- C3, amended: `splitIntoBatches` partitions its input exhaustively and in
order (concatenating the chunks reproduces the input exactly, so no item is
split across chunks); every chunk is non-empty with at most 1000 items; every
chunk containing at least two items has summed serialized size at most 32 MB
(a lone item larger than 32 MB forms its own over-sized chunk); and a chunk
is closed exactly when adding the next item would exceed one of the two
bounds. -/
theorem c3_split_into_batches {α : Type} (sz : α → ℚ) (messages : List α) :
    (splitIntoBatches sz messages).flatten = messages
      ∧ (∀ c ∈ splitIntoBatches sz messages,
          c ≠ [] ∧ c.length ≤ CLAUDE_BATCH_SIZE ∧
            (2 ≤ c.length → (c.map sz).sum ≤ MAX_BATCH_SIZE_MB))
      ∧ List.Chain'
          (fun c d => CLAUDE_BATCH_SIZE ≤ c.length ∨
            ∀ e ∈ d.head?, MAX_BATCH_SIZE_MB < (c.map sz).sum + sz e)
          (splitIntoBatches sz messages) := by
  refine ⟨by simpa using splitLoop_join sz messages [] 0, fun c hc => ?_, ?_⟩
  · exact ⟨splitLoop_ne_nil sz messages [] 0 c hc,
      splitLoop_length_le sz messages [] 0 (by simp) c hc,
      splitLoop_size_le sz messages [] 0 (by simp) (by simp [MAX_BATCH_SIZE_MB]) c hc⟩
  · exact splitLoop_chain sz messages [] 0 (by simp)

/-- C1: the reconciliation of `processBatchAsync` does NOT write results into
the slot encoded in the custom id.  A `POST /batch` job id has the shape
`job_<timestamp>_<random>`, so `custom_id = jobId + "_" + index` splits into
four `_`-separated segments with the submission index in segment 3 — but the
code reads `parseInt(custom_id.split('_')[2])`, the random segment.  For the
job id `job_99_abc0xyzqr` that parse yields `NaN` (`none`), so for a 2-item
job whose both results arrive, every numbered slot of the pre-sized results
array stays empty (instead of holding the two texts), while the index is
recoverable from segment 3 as the claim describes. -/
theorem c1_reconciliation_misparses_custom_id :
    jsSplitUnderscore (customId (mkJobId 99 "abc0xyzqr") 1)
        = ["job", "99", "abc0xyzqr", "1"]
      ∧ parseCustomIdIndex (customId (mkJobId 99 "abc0xyzqr") 1) = none
      ∧ ((jsSplitUnderscore (customId (mkJobId 99 "abc0xyzqr") 1)).get? 3).bind jsParseInt
          = some 1
      ∧ reconcileResults 2
          [(customId (mkJobId 99 "abc0xyzqr") 0, .succeeded "A"),
           (customId (mkJobId 99 "abc0xyzqr") 1, .succeeded "B")]
        = [none, none]
      ∧ reconcileResults 2
          [(customId (mkJobId 99 "abc0xyzqr") 0, .succeeded "A"),
           (customId (mkJobId 99 "abc0xyzqr") 1, .succeeded "B")]
        ≠ [some "A", some "B"] := by decide

/-- C2: with vision enabled, a vision model configured, and a non-empty image
list in which no URL validates, the `/process` route does not fall back to
the text-only path: it executes an assignment to the `const isVisionRequest`
binding, which throws a `TypeError` that surfaces as an HTTP 500 error —
whereas the equivalent text-only request succeeds with the text result. -/
theorem c2_vision_fallback_throws :
    processRoute "claude" true "claude-3-opus-20240229" ["https://example.com/img.jpg"]
        (fun _ => false) "text answer" "vision answer" "Summarize" "col"
      = .err 500 "Assignment to constant variable"
      ∧ processRoute "claude" true "claude-3-opus-20240229" [] (fun _ => false)
          "text answer" "vision answer" "Summarize" "col"
        = .ok "text answer" "col" := by decide

/-- C5: when template expansion leaves the raw template unchanged (no
placeholder, no matching column, or all matched values empty), `processRow`
classifies the row as empty and returns the empty string; the run state
records no dispatch attempt, no sleep (rate budget), and no failed cell —
only the cancellation-flag read is consumed. -/
theorem c5_empty_expansion_skips_dispatch (K : ℕ) (claude : Bool) (sys : String)
    (pc : String → Bool) (disp : ℕ → DispR) (i : ℕ) (template : String) (row : Row)
    (budget : ℕ) (s : PState) (hK : s.tick < K)
    (hexp : expandTemplate pc row template = template) :
    processRow K claude sys pc disp i template row budget s = (.val "", afterCheck s) := by
  have hK' : ¬ K ≤ s.tick := by omega
  rw [processRow.eq_def]
  dsimp only
  rw [if_neg hK']
  simp [hexp]

/-- C5 witness: a template whose placeholder matches no column of the row. -/
theorem c5_witness :
    ((⟨0, [], [], 0, 0⟩ : PState).tick < 1
      ∧ expandTemplate (fun _ => false) emptyRow "Summarize {title}" = "Summarize {title}")
      ∧ processRow 1 true "You are a helpful assistant." (fun _ => false)
          (fun _ => .ok "x") 0 "Summarize {title}" emptyRow MAX_RETRIES
          ⟨0, [], [], 0, 0⟩
        = (.val "", afterCheck ⟨0, [], [], 0, 0⟩) :=
  ⟨⟨by decide, by decide⟩,
    c5_empty_expansion_skips_dispatch 1 true "You are a helpful assistant."
      (fun _ => false) (fun _ => .ok "x") 0 "Summarize {title}" emptyRow MAX_RETRIES
      ⟨0, [], [], 0, 0⟩ (by decide) (by decide)⟩

/-- C9: for the token-budgeted (Claude) backend, when the estimated input
tokens of a single request — `estimateTokens` of the expanded prompt plus
`estimateTokens` of the system prompt — alone exceed the per-minute ceiling,
`processRow` fails immediately with the token-limit error: no dispatch
attempt, no sleep, only the failed-cell record is appended. -/
theorem c9_token_ceiling_fails_fast (K : ℕ) (sys : String) (pc : String → Bool)
    (disp : ℕ → DispR) (i : ℕ) (template : String) (row : Row) (budget : ℕ)
    (s : PState) (hK : s.tick < K)
    (hne : ¬ (expandTemplate pc row template = "" ∨ expandTemplate pc row template = template))
    (htok : inputTokensPerMinute <
      estimateTokens (expandTemplate pc row template) + estimateTokens sys) :
    processRow K true sys pc disp i template row budget s
      = (.failedErr tokenLimitMsg, trackFail (afterCheck s) i tokenLimitMsg) := by
  have hK' : ¬ K ≤ s.tick := by omega
  rw [processRow.eq_def]
  dsimp only
  rw [if_neg hK', if_neg hne, if_pos ⟨rfl, htok⟩]

/-- Characters outside any placeholder are copied literally by the scan. -/
theorem scanTemplate_literal (pc : String → Bool) (row : Row) :
    ∀ (l rest : List Char), '{' ∉ l →
      scanTemplate pc row (l ++ rest) none = l ++ scanTemplate pc row rest none := by
  intro l
  induction l with
  | nil => intro rest _; rfl
  | cons a l ih =>
    intro rest h
    rw [List.mem_cons, not_or] at h
    rw [List.cons_append, scanTemplate, if_neg (fun hh => h.1 hh.symm), ih rest h.2,
      List.cons_append]

/-- The scan in placeholder mode accumulates every character up to the first
closing brace. -/
theorem scanTemplate_inside (pc : String → Bool) (row : Row) :
    ∀ (cs : List Char), '}' ∉ cs → ∀ (inner rest : List Char),
      scanTemplate pc row (cs ++ rest) (some inner)
        = scanTemplate pc row rest (some (cs.reverse ++ inner)) := by
  intro cs
  induction cs with
  | nil => intro _ inner rest; rfl
  | cons a cs ih =>
    intro h inner rest
    rw [List.mem_cons, not_or] at h
    rw [List.cons_append, scanTemplate, if_neg (fun hh => h.1 hh.symm), ih h.2,
      List.reverse_cons, List.append_assoc, List.singleton_append]

/-- Unfolding of `estimateTokens` at an arbitrary argument (kept as an
explicit lemma so later instantiations never force kernel evaluation of a
large string). -/
theorem estimateTokens_apply (t : String) : estimateTokens t = (t.length + 3) / 4 := rfl

/-- C9 witness: expanded prompt "ab" (1 token) plus an 80000-token system
prompt exceeds the 80000-token ceiling, so dispatch fails fast. -/
theorem c9_witness :
    ((⟨0, [], [], 0, 0⟩ : PState).tick < 1
      ∧ ¬ (expandTemplate (fun _ => false) rowT "{t}" = ""
            ∨ expandTemplate (fun _ => false) rowT "{t}" = "{t}")
      ∧ inputTokensPerMinute <
          estimateTokens (expandTemplate (fun _ => false) rowT "{t}") + estimateTokens bigSys)
      ∧ processRow 1 true bigSys (fun _ => false) (fun _ => .ok "x") 0 "{t}" rowT
          MAX_RETRIES ⟨0, [], [], 0, 0⟩
        = (.failedErr tokenLimitMsg, trackFail (afterCheck ⟨0, [], [], 0, 0⟩) 0 tokenLimitMsg) := by
  have hexp : expandTemplate (fun _ => false) rowT "{t}" = "ab" := by decide
  have hlen : bigSys.length = 320000 := List.length_replicate 320000 'a'
  have hquot : (bigSys.length + 3) / 4 = 80000 := by rw [hlen]
  have hbig : estimateTokens bigSys = 80000 := (estimateTokens_apply bigSys).trans hquot
  have htok : inputTokensPerMinute <
      estimateTokens (expandTemplate (fun _ => false) rowT "{t}") + estimateTokens bigSys := by
    rw [hexp, hbig]
    decide
  have hne : ¬ (expandTemplate (fun _ => false) rowT "{t}" = ""
      ∨ expandTemplate (fun _ => false) rowT "{t}" = "{t}") := by
    rw [hexp]; decide
  exact ⟨⟨by decide, hne, htok⟩,
    c9_token_ceiling_fails_fast 1 bigSys (fun _ => false) (fun _ => .ok "x") 0 "{t}" rowT
      MAX_RETRIES ⟨0, [], [], 0, 0⟩ (by decide) hne htok⟩

/-- C6, counterexample: chaining through an earlier prompt's output column
fails when the computed output is the empty string.  Running `processData`
over one row (raw `title = "raw"`) with `promptA` (which skips and writes
`""` into `title`) and then `promptB` (template `"X {title}"`) leaves the
placeholder literal: the expansion equals the raw template (so `promptB` is
classified empty, writing `""` to `summary` with no dispatch at all), instead
of substituting the computed (empty) value as the claim requires — and it
does not restore the raw value `"raw"` either. -/
theorem c6_counterexample :
    ((processData 1000 false "" (fun _ => false) (fun _ _ _ => .ok "ignored")
        [promptA, promptB] ⟨0, [rowC6], [], 0, 0⟩).1.results.getD 0 emptyRow) "title"
      = some ""
      ∧ ((processData 1000 false "" (fun _ => false) (fun _ _ _ => .ok "ignored")
          [promptA, promptB] ⟨0, [rowC6], [], 0, 0⟩).1.results.getD 0 emptyRow) "summary"
        = some ""
      ∧ (processData 1000 false "" (fun _ => false) (fun _ _ _ => .ok "ignored")
          [promptA, promptB] ⟨0, [rowC6], [], 0, 0⟩).1.attempts = 0
      ∧ expandTemplate (fun _ => false) (Row.update rowC6 "title" "") "X {title}"
        = "X {title}"
      ∧ rowC6 "title" = some "raw" := by decide

/-- C6, amended: whenever an earlier prompt of the same run has written a
NON-EMPTY computed value `v` into column `c` of the row, a later template's
placeholder for `c` expands to `v` — the computed value, not the original raw
column value (which the in-place write superseded).  The placeholder name may
sit between any brace-free prefix and any suffix.  (When the computed value
is empty, the placeholder instead passes through literally, per the
counterexample.) -/
theorem c6_chained_placeholder_uses_computed (pc : String → Bool) (row : Row)
    (pre c post v : String)
    (hpre : '{' ∉ pre.data) (hc : c ≠ "") (hc2 : '}' ∉ c.data)
    (hc3 : trimChars c.data = c.data) (hv : v ≠ "") :
    expandTemplate pc (Row.update row c v) (pre ++ "\x7b" ++ c ++ "\x7d" ++ post)
      = pre ++ v ++ expandTemplate pc (Row.update row c v) post := by
  have happ : ∀ a b : String, a ++ b = String.mk (a.data ++ b.data) := fun a b => rfl
  have hdata : (pre ++ "\x7b" ++ c ++ "\x7d" ++ post).data
      = pre.data ++ '{' :: (c.data ++ '}' :: post.data) := by
    simp [String.data_append]
  have hcd : c.data ≠ [] := fun h => hc (congrArg String.mk h)
  have hsub : substValue pc (Row.update row c v) c.data = v.data := by
    unfold substValue
    dsimp only
    rw [hc3]
    have hmk : String.mk c.data = c := rfl
    rw [hmk]
    have hrow : (Row.update row c v) c = some v := by simp [Row.update]
    rw [hrow]
    simp [jsOr, hv]
  rw [expandTemplate, hdata,
    scanTemplate_literal pc (Row.update row c v) pre.data _ hpre]
  rw [show scanTemplate pc (Row.update row c v) ('{' :: (c.data ++ '}' :: post.data)) none
      = scanTemplate pc (Row.update row c v) (c.data ++ '}' :: post.data) (some []) from by
    rw [scanTemplate, if_pos rfl]]
  rw [scanTemplate_inside pc (Row.update row c v) c.data hc2 [] ('}' :: post.data)]
  rw [show scanTemplate pc (Row.update row c v) ('}' :: post.data) (some (c.data.reverse ++ []))
      = substValue pc (Row.update row c v) ((c.data.reverse ++ []).reverse)
          ++ scanTemplate pc (Row.update row c v) post.data none from by
    rw [scanTemplate, if_pos rfl, if_neg (by simpa [List.isEmpty_iff] using hcd)]]
  rw [List.append_nil, List.reverse_reverse, hsub]
  rw [happ (pre ++ v) (expandTemplate pc (Row.update row c v) post), happ pre v]
  show String.mk (pre.data ++ (v.data ++ scanTemplate pc (Row.update row c v) post.data none))
    = String.mk ((pre.data ++ v.data) ++ scanTemplate pc (Row.update row c v) post.data none)
  rw [List.append_assoc]

/-- C6 witness: after an earlier prompt computed `"out"` for column `title`,
the later template `"X {title}!"` expands to `"X out!"`. -/
theorem c6_witness :
    ('{' ∉ ("X " : String).data
      ∧ ("title" : String) ≠ ""
      ∧ '}' ∉ ("title" : String).data
      ∧ trimChars ("title" : String).data = ("title" : String).data
      ∧ ("out" : String) ≠ "")
      ∧ expandTemplate (fun _ => false) (Row.update rowC6 "title" "out")
          ("X " ++ "\x7b" ++ "title" ++ "\x7d" ++ "!")
        = "X " ++ "out" ++ expandTemplate (fun _ => false)
            (Row.update rowC6 "title" "out") "!" :=
  ⟨⟨by decide, by decide, by decide, by decide, by decide⟩,
    c6_chained_placeholder_uses_computed (fun _ => false) rowC6 "X " "title" "!" "out"
      (by decide) (by decide) (by decide) (by decide) (by decide)⟩

/-!
## Lemmas about the happy-path job trace
-/

/-- The last per-item row of a non-empty run. -/
theorem jobItems_getLastD (n : ℕ) (d : JRow) :
    (jobItems (n + 1)).getLastD d = jobItem (n + 1) n := by
  rw [jobItems, List.range_succ, List.map_append]
  simp

/-- `batchProgress` is non-negative. -/
theorem batchProgress_nonneg (k n : ℕ) : 0 ≤ batchProgress k n := by
  unfold batchProgress
  positivity

/-- `batchProgress` is monotone in the processed count (for `total = 0` the
JS division yields `NaN`; in the exact model `x / 0 = 0`, and no per-item
update occurs for an empty job anyway). -/
theorem batchProgress_le (k k' n : ℕ) (h : k ≤ k') :
    batchProgress k n ≤ batchProgress k' n := by
  unfold batchProgress
  rcases Nat.eq_zero_or_pos n with h0 | hpos
  · subst h0; simp
  · have hn : (0:ℚ) < (n : ℚ) := by exact_mod_cast hpos
    have hk : (k:ℚ) ≤ (k' : ℚ) := by exact_mod_cast h
    have := (div_le_div_iff_of_pos_right hn).mpr hk
    nlinarith

/-- All items processed means progress 100. -/
theorem batchProgress_self (n : ℕ) (hn : 1 ≤ n) : batchProgress n n = 100 := by
  unfold batchProgress
  rw [div_self (by exact_mod_cast Nat.one_le_iff_ne_zero.mp hn : (n:ℚ) ≠ 0), one_mul]

/-- Progress 100 forces all items processed. -/
theorem batchProgress_eq_100 (k n : ℕ) (h : batchProgress k n = 100) :
    k = n ∧ 1 ≤ n := by
  unfold batchProgress at h
  rcases Nat.eq_zero_or_pos n with h0 | hpos
  · subst h0; norm_num at h
  · have hn : (0:ℚ) < (n : ℚ) := by exact_mod_cast hpos
    have hk : (k:ℚ) = (n:ℚ) := by
      field_simp at h
      linarith
    exact ⟨by exact_mod_cast hk, hpos⟩

/-- Membership in the happy-path trace, by construction of the list. -/
theorem mem_jobTrace (n : ℕ) (now : ℤ) (s : JRow) :
    s ∈ jobTrace n now ↔
      s = jobRow0 n ∨ s = jobRow1 n ∨ s = jobRow2 n
        ∨ (∃ k < n, s = jobItem n k) ∨ s = jobFinal n now := by
  constructor
  · intro h
    simp only [jobTrace, List.mem_append, List.mem_cons, List.not_mem_nil, or_false,
      List.mem_singleton] at h
    rcases h with ((h | h | h) | h) | h
    · exact Or.inl h
    · exact Or.inr (Or.inl h)
    · exact Or.inr (Or.inr (Or.inl h))
    · rw [jobItems] at h
      rcases List.mem_map.mp h with ⟨k, hk, hs⟩
      exact Or.inr (Or.inr (Or.inr (Or.inl ⟨k, List.mem_range.mp hk, hs.symm⟩)))
    · exact Or.inr (Or.inr (Or.inr (Or.inr h)))
  · intro h
    simp only [jobTrace, List.mem_append, List.mem_cons, List.not_mem_nil, or_false,
      List.mem_singleton]
    rcases h with h | h | h | ⟨k, hk, hs⟩ | h
    · exact Or.inl (Or.inl (Or.inl h))
    · exact Or.inl (Or.inl (Or.inr (Or.inl h)))
    · exact Or.inl (Or.inl (Or.inr (Or.inr h)))
    · refine Or.inl (Or.inr ?_)
      rw [jobItems]
      exact List.mem_map.mpr ⟨k, List.mem_range.mpr hk, hs.symm⟩
    · exact Or.inr h

/-- Per-item progress rows are monotone. -/
theorem chain'_jobItems (n : ℕ) :
    List.Chain' (fun a b : JRow => a.progress ≤ b.progress) (jobItems n) := by
  rw [jobItems, List.chain'_map]
  cases n with
  | zero => simp
  | succ m =>
    rw [List.chain'_range_succ]
    intro i _
    show batchProgress (i + 1) (m + 1) ≤ batchProgress (i + 1 + 1) (m + 1)
    exact batchProgress_le _ _ _ (by omega)

/-- The last per-item row, as a `getLast?`. -/
theorem jobItems_getLast? (m : ℕ) :
    (jobItems (m + 1)).getLast? = some (jobItem (m + 1) m) := by
  rw [jobItems, List.range_succ, List.map_append]
  simp

/-- C4, counterexample: the stored row written by the per-item progress
update for the final message of a 1-message job has `progress = 100` while
its status is still `waiting` — the completion update comes only afterwards —
so "progress equals 100 iff status is 'completed'" fails on the update
sequence as stated. -/
theorem c4_counterexample :
    ∃ s ∈ jobTrace 1 0, s.progress = 100 ∧ s.status ≠ JStatus.completed := by
  refine ⟨jobItem 1 0, ?_, ?_, ?_⟩
  · exact (mem_jobTrace 1 0 _).mpr (Or.inr (Or.inr (Or.inr (Or.inl ⟨0, by omega, rfl⟩))))
  · show batchProgress 1 1 = 100
    exact batchProgress_self 1 le_rfl
  · intro h
    simp [jobItem, jobRow2, jobRow1, jobRow0, initialJob, applyUpd] at h

/-- C4, amended: across the sequence of stored job rows of a successful run —
the row created by `createJob` and the rows after each `updateJob` of
`processBatchAsync` — `processed_messages` never exceeds `total_messages` and
`progress` is monotonically non-decreasing; any row whose status is
'completed' has progress 100 provided the job has at least one message; and
any row with progress 100 has all messages processed — but progress already
reaches 100 in the per-item update for the final message, one store update
before the status turns 'completed' (status still 'waiting'), so progress 100
does not imply terminal-success. -/
theorem c4_job_progress_invariants (n : ℕ) (now : ℤ) :
    List.Chain' (fun a b : JRow => a.progress ≤ b.progress) (jobTrace n now)
      ∧ (∀ s ∈ jobTrace n now, s.processed ≤ s.total)
      ∧ (∀ s ∈ jobTrace n now, s.status = JStatus.completed → 1 ≤ n → s.progress = 100)
      ∧ (∀ s ∈ jobTrace n now, s.progress = 100 → s.processed = s.total ∧ 1 ≤ n) := by
  refine ⟨?_, ?_, ?_, ?_⟩
  · rw [jobTrace]
    refine List.chain'_append.mpr ⟨List.chain'_append.mpr ⟨?_, chain'_jobItems n, ?_⟩, ?_, ?_⟩
    · simp [List.chain'_cons, jobRow0, jobRow1, jobRow2, initialJob, applyUpd]
    · intro x hx y hy
      simp only [List.getLast?_cons_cons, List.getLast?_singleton, Option.mem_def,
        Option.some.injEq] at hx
      subst hx
      have hy' := List.mem_of_mem_head? hy
      rw [jobItems] at hy'
      rcases List.mem_map.mp hy' with ⟨k, _, hk⟩
      subst hk
      show (jobRow2 n).progress ≤ batchProgress (k + 1) n
      have h0 : (jobRow2 n).progress = 0 := rfl
      rw [h0]
      exact batchProgress_nonneg _ _
    · simp
    · intro x hx y hy
      simp only [List.head?_cons, Option.mem_def, Option.some.injEq] at hy
      subst hy
      cases n with
      | zero =>
        simp only [jobItems, List.range_zero, List.map_nil, List.append_nil] at hx
        simp only [List.getLast?_cons_cons, List.getLast?_singleton, Option.mem_def,
          Option.some.injEq] at hx
        subst hx
        show (jobRow2 0).progress ≤ (jobFinal 0 now).progress
        exact le_of_eq rfl
      | succ m =>
        rw [List.getLast?_append, jobItems_getLast?] at hx
        simp only [Option.or, Option.mem_def, Option.some.injEq] at hx
        subst hx
        rw [jobFinal, jobItems_getLastD]
        exact le_of_eq rfl
  · intro s hs
    rcases (mem_jobTrace n now s).mp hs with h | h | h | ⟨k, hk, h⟩ | h <;> subst h
    · exact Nat.zero_le n
    · exact Nat.zero_le n
    · exact Nat.zero_le n
    · exact hk
    · cases n with
      | zero => exact le_rfl
      | succ m => rw [jobFinal, jobItems_getLastD]; exact le_rfl
  · intro s hs hcomp hn
    rcases (mem_jobTrace n now s).mp hs with h | h | h | ⟨k, hk, h⟩ | h <;> subst h
    · simp [jobRow0, initialJob] at hcomp
    · simp [jobRow1, jobRow0, initialJob, applyUpd] at hcomp
    · simp [jobRow2, jobRow1, jobRow0, initialJob, applyUpd] at hcomp
    · simp [jobItem, jobRow2, jobRow1, jobRow0, initialJob, applyUpd] at hcomp
    · cases n with
      | zero => omega
      | succ m =>
        rw [jobFinal, jobItems_getLastD]
        show batchProgress (m + 1) (m + 1) = 100
        exact batchProgress_self _ (by omega)
  · intro s hs h100
    rcases (mem_jobTrace n now s).mp hs with h | h | h | ⟨k, hk, h⟩ | h <;> subst h
    · exact absurd h100 (by norm_num [jobRow0, initialJob])
    · exact absurd h100 (by norm_num [jobRow1, jobRow0, initialJob, applyUpd])
    · exact absurd h100 (by norm_num [jobRow2, jobRow1, jobRow0, initialJob, applyUpd])
    · have h := batchProgress_eq_100 (k + 1) n h100
      exact ⟨h.1, h.2⟩
    · cases n with
      | zero => exact absurd h100 (by norm_num [jobFinal, jobItems, jobRow2, jobRow1,
          jobRow0, initialJob, applyUpd])
      | succ m =>
        rw [jobFinal, jobItems_getLastD]
        exact ⟨rfl, by omega⟩

/-!
## Lemmas about the effect traces and retention purge
-/

/-- Effects taken from the happy run strictly before the completion update
are neither the retention sweep nor a completion update. -/
theorem mem_happy_take (n : ℕ) (t : ℤ) (k : ℕ) (e : BEffect)
    (he : e ∈ (happyEffects n t).take (min k (4 + n))) :
    e ≠ BEffect.cleanup ∧ ∀ u, e ≠ BEffect.upd (JUpd.toCompleted u) := by
  rw [happyEffects, List.take_append_of_le_length (by simp; omega)] at he
  have he' := List.take_subset _ _ he
  rcases List.mem_append.mp he' with h4 | hmap
  · fin_cases h4 <;> exact ⟨by simp, fun u => by simp⟩
  · rcases List.mem_map.mp hmap with ⟨i, _, hi⟩
    subst hi
    exact ⟨by simp, fun u => by simp⟩

/-- Partial job-store merges other than the completion update leave
`completed_at` untouched. -/
theorem foldl_applyUpd_completed_at (l : List JUpd) (j : JRow)
    (hl : ∀ u ∈ l, ∀ t, u ≠ JUpd.toCompleted t) (hj : j.completed_at = none) :
    (l.foldl applyUpd j).completed_at = none := by
  induction l generalizing j with
  | nil => exact hj
  | cons u l ih =>
    refine ih _ (fun u' hu' => hl u' (List.mem_cons_of_mem _ hu')) ?_
    cases u with
    | toCompleted t => exact absurd rfl (hl _ (List.mem_cons_self _ _) t)
    | toProcessing => exact hj
    | toWaiting b => exact hj
    | itemProgress a b => exact hj
    | toFailed m => exact hj

/-- The updates of a failing run: everything persisted before the failure,
then the single `failed` update. -/
theorem runUpdates_failed (n : ℕ) (now : ℤ) (k : ℕ) (msg : String) :
    runUpdates n now (some (k, msg))
      = ((happyEffects n now).take (min k (4 + n))).filterMap
          (fun e => match e with | .upd u => some u | _ => none)
        ++ [JUpd.toFailed msg] := by
  rw [runUpdates, runEffects, List.filterMap_append]
  rfl

/-- C7, counterexample: a run that fails (here: during batch creation, before
any item is reconciled) still reaches a terminal state — its final Job Store
update sets status 'failed' — yet the retention sweep is NOT invoked, whereas
the successful run does invoke it; so "purge runs opportunistically after
each job reaches a terminal state" fails for failed jobs. -/
theorem c7_counterexample :
    BEffect.cleanup ∉ runEffects 1 0 (some (2, "boom"))
      ∧ (runEffects 1 0 (some (2, "boom"))).getLast? = some (.upd (.toFailed "boom"))
      ∧ BEffect.cleanup ∈ runEffects 1 0 none := by decide

/-- C7, amended: the retention purge deletes exactly the jobs whose
`completed_at` is present and more than 29 days in the past, leaving every
other job untouched (in particular every job with no completion timestamp);
and the purge runs opportunistically as the final step of every successful
run, immediately after the completion update — but a run that ends in the
terminal 'failed' state performs no purge. -/
theorem c7_retention_purge (now : ℤ) (table : List JRow) (n : ℕ) (tdone : ℤ) :
    (∀ j ∈ table, (j ∈ cleanupOldJobs now table
        ↔ ¬ ∃ t, j.completed_at = some t ∧ t < now - CLEANUP_DAYS * msPerDay))
      ∧ (∃ l, runEffects n tdone none
          = l ++ [BEffect.upd (JUpd.toCompleted tdone), BEffect.cleanup])
      ∧ (∀ k msg, BEffect.cleanup ∉ runEffects n tdone (some (k, msg))) := by
  refine ⟨?_, ?_, ?_⟩
  · intro j hj
    rw [cleanupOldJobs, List.mem_filter]
    constructor
    · rintro ⟨-, hkeep⟩ ⟨t, ht, hlt⟩
      rw [ht] at hkeep
      simp only [Bool.not_eq_true', decide_eq_false_iff_not] at hkeep
      exact hkeep hlt
    · intro hno
      refine ⟨hj, ?_⟩
      cases hct : j.completed_at with
      | none => rfl
      | some t =>
        have hnlt : ¬ t < now - CLEANUP_DAYS * msPerDay := fun hlt => hno ⟨t, hct, hlt⟩
        simp [hnlt]
  · exact ⟨_, rfl⟩
  · intro k msg hmem
    rw [runEffects] at hmem
    rcases List.mem_append.mp hmem with h | h
    · exact (mem_happy_take n tdone k _ h).1 rfl
    · simp at h

/-- C10: a job whose run fails — at any point during batch creation, polling,
or reconciliation, all of which precede the completion update — ends with
status 'failed' and with `completed_at` still absent (`NULL`): the failure
update sets only `status` and `error`.  Since the retention sweep's SQL
comparison `completed_at < cutoff` is never satisfied by `NULL`, such a job
is kept by every purge, no matter when the purge runs. -/
theorem c10_failed_jobs_never_purged (n : ℕ) (now : ℤ) (k : ℕ) (msg : String) :
    (failedRunJob n now k msg).status = JStatus.failed
      ∧ (failedRunJob n now k msg).completed_at = none
      ∧ ∀ (t : ℤ) (table : List JRow),
          failedRunJob n now k msg ∈ table →
            failedRunJob n now k msg ∈ cleanupOldJobs t table := by
  have hupd : failedRunJob n now k msg
      = applyUpd
          ((((happyEffects n now).take (min k (4 + n))).filterMap
            (fun e => match e with | .upd u => some u | _ => none)).foldl applyUpd
            (initialJob n))
          (JUpd.toFailed msg) := by
    rw [failedRunJob, runUpdates_failed, List.foldl_append]
    rfl
  have hca : (failedRunJob n now k msg).completed_at = none := by
    rw [hupd]
    show ((((happyEffects n now).take (min k (4 + n))).filterMap
      (fun e => match e with | .upd u => some u | _ => none)).foldl applyUpd
      (initialJob n)).completed_at = none
    refine foldl_applyUpd_completed_at _ _ ?_ rfl
    intro u hu t
    rcases List.mem_filterMap.mp hu with ⟨e, he, hue⟩
    intro hut
    subst hut
    rcases e with u' | _ | _ | _ <;> simp at hue
    exact (mem_happy_take n now k _ he).2 t (by rw [hue])
  refine ⟨by rw [hupd]; rfl, hca, ?_⟩
  intro t table htab
  rw [cleanupOldJobs, List.mem_filter]
  refine ⟨htab, ?_⟩
  rw [hca]

/-!
## Lemmas about cancellation in the per-row pipeline
-/

theorem afterCheck_failed (s : PState) : (afterCheck s).failed = s.failed := rfl

theorem trackFail_failed (s : PState) (i : ℕ) (e : String) :
    (trackFail s i e).failed = s.failed ++ [(i, e)] := rfl

theorem processRow_failed_no_stop (K : ℕ) (claude : Bool) (sys : String)
    (pc : String → Bool) (disp : ℕ → DispR) (i : ℕ) (template : String) (row : Row) :
    ∀ (budget : ℕ) (s : PState),
      ∀ x ∈ (processRow K claude sys pc disp i template row budget s).2.failed,
        x ∈ s.failed ∨ x.2 ≠ stoppedMsg := by
  intro budget
  induction budget with
  | zero =>
    intro s x hx
    rw [processRow.eq_def] at hx
    dsimp only at hx
    simp only [trackFail, afterCheck, apply_ite PState.failed, ite_self] at hx
    split at hx
    · exact Or.inl hx
    · split at hx
      · exact Or.inl hx
      · split at hx
        · dsimp only at hx
          rcases List.mem_append.mp hx with h | h
          · exact Or.inl h
          · rw [List.mem_singleton] at h
            subst h
            refine Or.inr ?_
            show tokenLimitMsg ≠ stoppedMsg
            decide
        · split at hx
          · exact Or.inl hx
          · split at hx
            · exact Or.inl hx
            · next hem =>
              dsimp only at hx
              rcases List.mem_append.mp hx with h | h
              · exact Or.inl h
              · rw [List.mem_singleton] at h
                subst h
                exact Or.inr hem
          · split at hx
            · exact Or.inl hx
            · next hem =>
              dsimp only at hx
              rcases List.mem_append.mp hx with h | h
              · exact Or.inl h
              · rw [List.mem_singleton] at h
                subst h
                exact Or.inr hem
  | succ b ih =>
    intro s x hx
    rw [processRow.eq_def] at hx
    dsimp only at hx
    simp only [trackFail, afterCheck, apply_ite PState.failed, ite_self] at hx
    split at hx
    · exact Or.inl hx
    · split at hx
      · exact Or.inl hx
      · split at hx
        · dsimp only at hx
          rcases List.mem_append.mp hx with h | h
          · exact Or.inl h
          · rw [List.mem_singleton] at h
            subst h
            refine Or.inr ?_
            show tokenLimitMsg ≠ stoppedMsg
            decide
        · split at hx
          · exact Or.inl hx
          · split at hx
            · exact Or.inl hx
            · rcases ih _ x hx with h | h
              · exact Or.inl h
              · exact Or.inr h
          · split at hx
            · exact Or.inl hx
            · next hem =>
              dsimp only at hx
              rcases List.mem_append.mp hx with h | h
              · exact Or.inl h
              · rw [List.mem_singleton] at h
                subst h
                exact Or.inr hem

theorem processRowsLoop_failed_no_stop (K : ℕ) (claude : Bool) (sys : String)
    (pc : String → Bool) (disp : ℕ → ℕ → DispR) (template outCol : String) :
    ∀ (l : List ℕ) (s : PState),
      ∀ x ∈ (processRowsLoop K claude sys pc disp template outCol l s).1.failed,
        x ∈ s.failed ∨ x.2 ≠ stoppedMsg := by
  intro l
  induction l with
  | nil => intro s x hx; exact Or.inl hx
  | cons i rest ih =>
    intro s x hx
    rw [processRowsLoop.eq_def] at hx
    dsimp only at hx
    split at hx
    · exact Or.inl hx
    · split at hx
      · next s2 heq =>
        have hpr := processRow_failed_no_stop K claude sys pc (disp i) i template
          ((afterCheck s).results.getD i emptyRow) MAX_RETRIES (afterCheck s) x
        rw [heq] at hpr
        exact hpr hx
      · next v s2 heq =>
        rcases ih _ x hx with h | h
        · have hpr := processRow_failed_no_stop K claude sys pc (disp i) i template
            ((afterCheck s).results.getD i emptyRow) MAX_RETRIES (afterCheck s) x
          rw [heq] at hpr
          exact hpr h
        · exact Or.inr h
      · next e s2 heq =>
        split at hx
        · have hpr := processRow_failed_no_stop K claude sys pc (disp i) i template
            ((afterCheck s).results.getD i emptyRow) MAX_RETRIES (afterCheck s) x
          rw [heq] at hpr
          exact hpr hx
        · next hem =>
          rcases ih _ x hx with h | h
          · rw [trackFail] at h
            dsimp only at h
            rcases List.mem_append.mp h with h2 | h2
            · have hpr := processRow_failed_no_stop K claude sys pc (disp i) i template
                ((afterCheck s).results.getD i emptyRow) MAX_RETRIES (afterCheck s) x
              rw [heq] at hpr
              exact hpr h2
            · rw [List.mem_singleton] at h2
              subst h2
              exact Or.inr hem
          · exact Or.inr h

theorem processRowsLoop_escape_stop (K : ℕ) (claude : Bool) (sys : String)
    (pc : String → Bool) (disp : ℕ → ℕ → DispR) (template outCol : String) :
    ∀ (l : List ℕ) (s : PState) (e : String),
      (processRowsLoop K claude sys pc disp template outCol l s).2 = some e →
        e = stoppedMsg := by
  intro l
  induction l with
  | nil => intro s e he; exact absurd he (by simp [processRowsLoop])
  | cons i rest ih =>
    intro s e he
    rw [processRowsLoop.eq_def] at he
    dsimp only at he
    split at he
    · exact absurd he (by simp)
    · split at he
      · simp only [Option.some.injEq] at he
        exact he.symm
      · exact ih _ _ he
      · split at he
        · next hem =>
          simp only [Option.some.injEq] at he
          rw [← he]
          exact hem
        · exact ih _ _ he

theorem processPrompts_failed_no_stop (K : ℕ) (claude : Bool) (sys : String)
    (pc : String → Bool) (disp : Prompt → ℕ → ℕ → DispR) :
    ∀ (prompts : List Prompt) (s : PState),
      ∀ x ∈ (processPrompts K claude sys pc disp prompts s).1.failed,
        x ∈ s.failed ∨ x.2 ≠ stoppedMsg := by
  intro prompts
  induction prompts with
  | nil => intro s x hx; exact Or.inl hx
  | cons p rest ih =>
    intro s x hx
    rw [processPrompts.eq_def] at hx
    dsimp only at hx
    split at hx
    · exact Or.inl hx
    · split at hx
      · next s2 e heq =>
        have hrl := processRowsLoop_failed_no_stop K claude sys pc (disp p)
          p.template p.outputColumn (List.range (afterCheck s).results.length)
          (afterCheck s) x
        rw [heq] at hrl
        exact hrl hx
      · next s2 heq =>
        rcases ih _ x hx with h | h
        · have hrl := processRowsLoop_failed_no_stop K claude sys pc (disp p)
            p.template p.outputColumn (List.range (afterCheck s).results.length)
            (afterCheck s) x
          rw [heq] at hrl
          exact hrl h
        · exact Or.inr h

theorem processPrompts_escape_stop (K : ℕ) (claude : Bool) (sys : String)
    (pc : String → Bool) (disp : Prompt → ℕ → ℕ → DispR) :
    ∀ (prompts : List Prompt) (s : PState) (e : String),
      (processPrompts K claude sys pc disp prompts s).2 = some e → e = stoppedMsg := by
  intro prompts
  induction prompts with
  | nil => intro s e he; exact absurd he (by simp [processPrompts])
  | cons p rest ih =>
    intro s e he
    rw [processPrompts.eq_def] at he
    dsimp only at he
    split at he
    · exact absurd he (by simp)
    · split at he
      · next s2 e' heq =>
        simp only [Option.some.injEq] at he
        subst he
        exact processRowsLoop_escape_stop K claude sys pc (disp p)
          p.template p.outputColumn _ _ e' (by rw [heq])
      · exact ih _ _ he

/-- C8: cancellation semantics of the per-row pipeline.  (1) From any run
state in which the cooperative stop flag is already set, the pipeline
dispatches no further rows and leaves the result rows, failed-cell list,
dispatch count and consumed sleep budget untouched (already-written output is
never rolled back).  (2) No failed-cell entry recorded by any run carries the
distinguished 'Processing stopped by user' message — the halt is never
recorded as a Failed Cell (and, by the retry structure of `processRow`, a
cancellation observed before or between attempts is propagated, never
retried).  (3) The only exception that can escape the loops is the
distinguished cancellation, and the outer catch never reports it through
`handleError`. -/
theorem c8_cancellation (K : ℕ) (claude : Bool) (sys : String) (pc : String → Bool)
    (disp : Prompt → ℕ → ℕ → DispR) (prompts : List Prompt) (s : PState)
    (hK : K ≤ s.tick) :
    ((processData K claude sys pc disp prompts s).1.attempts = s.attempts
      ∧ (processData K claude sys pc disp prompts s).1.results = s.results
      ∧ (processData K claude sys pc disp prompts s).1.failed = s.failed
      ∧ (processData K claude sys pc disp prompts s).1.sleptMs = s.sleptMs)
      ∧ (∀ s' : PState, ∀ x ∈ (processData K claude sys pc disp prompts s').1.failed,
          x ∈ s'.failed ∨ x.2 ≠ stoppedMsg)
      ∧ (∀ s' : PState,
          handleErrorCalls (processData K claude sys pc disp prompts s').2 = none) := by
  refine ⟨?_, ?_, ?_⟩
  · rw [processData]
    cases hf : prompts.filter (·.active) with
    | nil => exact ⟨rfl, rfl, rfl, rfl⟩
    | cons p ps =>
      rw [processPrompts.eq_def]
      dsimp only
      rw [if_pos hK]
      exact ⟨rfl, rfl, rfl, rfl⟩
  · intro s' x hx
    exact processPrompts_failed_no_stop K claude sys pc disp _ s' x hx
  · intro s'
    cases he : (processData K claude sys pc disp prompts s').2 with
    | none => rfl
    | some e =>
      rw [processData] at he
      have h := processPrompts_escape_stop K claude sys pc disp _ s' e he
      subst h
      rfl

/-- C8 witness: a run entered with the stop flag already set (`K = 0`). -/
theorem c8_witness :
    ((0 : ℕ) ≤ (⟨0, [], [], 0, 0⟩ : PState).tick)
      ∧ (((processData 0 false "" (fun _ => false) (fun _ _ _ => .ok "x") [promptA]
              ⟨0, [], [], 0, 0⟩).1.attempts = (⟨0, [], [], 0, 0⟩ : PState).attempts
          ∧ (processData 0 false "" (fun _ => false) (fun _ _ _ => .ok "x") [promptA]
              ⟨0, [], [], 0, 0⟩).1.results = (⟨0, [], [], 0, 0⟩ : PState).results
          ∧ (processData 0 false "" (fun _ => false) (fun _ _ _ => .ok "x") [promptA]
              ⟨0, [], [], 0, 0⟩).1.failed = (⟨0, [], [], 0, 0⟩ : PState).failed
          ∧ (processData 0 false "" (fun _ => false) (fun _ _ _ => .ok "x") [promptA]
              ⟨0, [], [], 0, 0⟩).1.sleptMs = (⟨0, [], [], 0, 0⟩ : PState).sleptMs)
          ∧ (∀ s' : PState,
              ∀ x ∈ (processData 0 false "" (fun _ => false) (fun _ _ _ => .ok "x")
                [promptA] s').1.failed, x ∈ s'.failed ∨ x.2 ≠ stoppedMsg)
          ∧ (∀ s' : PState,
              handleErrorCalls (processData 0 false "" (fun _ => false)
                (fun _ _ _ => .ok "x") [promptA] s').2 = none)) :=
  ⟨le_rfl,
    c8_cancellation 0 false "" (fun _ => false) (fun _ _ _ => .ok "x") [promptA]
      ⟨0, [], [], 0, 0⟩ le_rfl⟩

end RecipeProcessor
